import Mathlib

/-!
Verification of the sliding-window rate limiter (`ratelimiter.py`).

Instants and durations (`datetime` / `timedelta` values, which form an
ordered additive group under the operations the source uses) are modelled
as `Int`.  A Python list of timestamps is a `List Int`, oldest first:
`list.append` adds at the end, `list.pop()` removes the LAST (newest)
element, `list.insert(0, x)` adds at the front.
-/

/-- Exception raised when the rate limit is reached (`RateLimitException`). -/
inductive RateLimitException where
  | mk
deriving DecidableEq

/-- Outcome of one invocation of the wrapped (guarded) operation:
the call raised `RateLimitException`, returned the inner operation's
value, or propagated the inner operation's failure. -/
inductive WrapResult (ε β : Type) where
  | rateLimited : WrapResult ε β
  | ok : β → WrapResult ε β
  | failed : ε → WrapResult ε β
deriving DecidableEq

/-- The purge loop of `_limit_reached`, on the REVERSED queue (newest
first), since Python `queue.pop()` pops the newest element.  One loop
iteration pops the newest entry `i`; if `i >= time - period` it is
re-inserted at index 0 (the front, i.e. the oldest end) and the loop
breaks, otherwise the entry is dropped and the loop continues.  The
result is the final queue in oldest-first order. -/
def purgeRev (time period : Int) : List Int → List Int
  | [] => []
  | i :: rest =>
    if time - period ≤ i then i :: rest.reverse
    else purgeRev time period rest

/-- The queue left behind by the purge loop of `_limit_reached`
(lines 36-42 of the source), queue given and returned oldest-first. -/
def purge (queue : List Int) (time period : Int) : List Int :=
  purgeRev time period queue.reverse

/-- Embedding of `_limit_reached(queue, time, rate, period)`: runs the
purge loop, then returns `len(queue) >= rate` together with the mutated
queue. -/
def limit_reached (queue : List Int) (time rate period : Int) : Bool × List Int :=
  let q := purge queue time period
  (decide (rate ≤ (q.length : Int)), q)

/-- Embedding of one call of `wrapped(*args, **kwargs)`.  The source
reads `_current_time()` twice: once as the `time` argument of
`_limit_reached` (modelled as `t1`) and, when the limit was not reached,
once more for the value appended to the queue (modelled as `t2`).  The
inner operation `f` (possibly failing, modelled with `Except`) is applied
to the original argument `a` after the append; the third component
records the list of arguments `f` was invoked with during this call. -/
def wrapped {α β ε : Type} (rate per : Int) (f : α → Except ε β)
    (queue : List Int) (t1 t2 : Int) (a : α) :
    WrapResult ε β × List Int × List α :=
  let r := limit_reached queue t1 rate per
  if r.1 then (WrapResult.rateLimited, r.2, [])
  else
    match f a with
    | Except.ok b => (WrapResult.ok b, r.2 ++ [t2], [a])
    | Except.error e => (WrapResult.failed e, r.2 ++ [t2], [a])

/-- The queue transition of a single wrapped call in which both reads of
the time source return the same instant `now` (a frozen or instantaneous
clock): returns whether the call was admitted (the inner operation ran)
and the queue afterwards. -/
def acquire (rate per : Int) (queue : List Int) (now : Int) : Bool × List Int :=
  let r := limit_reached queue now rate per
  if r.1 then (false, r.2) else (true, r.2 ++ [now])

/-- Runs a sequence of wrapped calls, one per listed instant (each call's
two time reads both returning that instant), from the given queue;
returns the final queue and the list of admission decisions in call
order. -/
def runCalls (rate per : Int) (queue : List Int) : List Int → List Int × List Bool
  | [] => (queue, [])
  | t :: ts =>
    let s := acquire rate per queue t
    let rest := runCalls rate per s.2 ts
    (rest.1, s.1 :: rest.2)

/-- The instants of the admitted calls of a run (the timestamps recorded
by the limiter), in call order. -/
def admittedTimes (rate per : Int) (queue : List Int) : List Int → List Int
  | [] => []
  | t :: ts =>
    let s := acquire rate per queue t
    if s.1 then t :: admittedTimes rate per s.2 ts
    else admittedTimes rate per s.2 ts

/-- Error the spec says construction raises for a non-positive rate or
period.  No such error exists anywhere in the source. -/
inductive ConfigurationError where
  | mk
deriving DecidableEq

/-- The configuration captured by `limiter(rate, per)`. -/
structure Limiter where
  rate : Int
  per : Int
deriving DecidableEq

/-- Embedding of the construction `limiter(rate, per)` (lines 47-70 of
the source): the source performs NO validation of `rate` or `per` and
construction always succeeds.  The `Except` codomain makes the failure
claimed by the spec expressible; the code never takes the error branch. -/
def limiter (rate per : Int) : Except ConfigurationError Limiter :=
  Except.ok ⟨rate, per⟩

/-- Modelled from the spec (for comparison with `limiter`): construction
fails with `ConfigurationError` if `rate <= 0` or `period <= 0`, and
succeeds otherwise. -/
def limiterSpec (rate per : Int) : Except ConfigurationError Limiter :=
  if rate ≤ 0 ∨ per ≤ 0 then Except.error ConfigurationError.mk
  else Except.ok ⟨rate, per⟩

/-- A system of two independently decorated operations, as produced by
two separate applications of `limiter(...)`: each application's `wrap`
creates its own fresh queue (`queue = []` in `wrap`), captured by that
wrapper alone. -/
structure TwoLimiters where
  queue₁ : List Int
  queue₂ : List Int
deriving DecidableEq

/-- The state of a two-limiter system right after both decorations are
applied: each wrapper starts with its own empty queue. -/
def initTwoLimiters : TwoLimiters := ⟨[], []⟩

/-- One call through the first wrapper: only the first queue is read and
written, since the closure of the first wrapper captures only its own
queue. -/
def callFirst (rate per : Int) (s : TwoLimiters) (now : Int) : Bool × TwoLimiters :=
  let r := acquire rate per s.queue₁ now
  (r.1, ⟨r.2, s.queue₂⟩)

/-- One call through the second wrapper: only the second queue is read
and written. -/
def callSecond (rate per : Int) (s : TwoLimiters) (now : Int) : Bool × TwoLimiters :=
  let r := acquire rate per s.queue₂ now
  (r.1, ⟨s.queue₁, r.2⟩)

/-! ### Purge lemmas -/

/-- The purge loop never removes a live entry: the multiplicity of every
value satisfying a predicate that implies liveness is preserved (reversed
queue version). -/
theorem countP_purgeRev (p : Int → Bool) (now period : Int)
    (hp : ∀ x, p x = true → now - period ≤ x) :
    ∀ l : List Int, (purgeRev now period l).countP p = l.countP p := by
  intro l
  induction l with
  | nil => rfl
  | cons i rest ih =>
    by_cases h : now - period ≤ i
    · simp [purgeRev, h, List.countP_cons, List.countP_reverse]
    · have hpi : p i = false := by
        by_contra hne
        exact h (hp i (by simpa using hne))
      simp [purgeRev, h, List.countP_cons, hpi, ih]

/-- The purge never removes a live entry: multiplicities of values
satisfying a liveness-implying predicate are preserved. -/
theorem countP_purge (p : Int → Bool) (queue : List Int) (now period : Int)
    (hp : ∀ x, p x = true → now - period ≤ x) :
    (purge queue now period).countP p = queue.countP p := by
  rw [purge, countP_purgeRev p now period hp, List.countP_reverse]

/-- A queue of identical live timestamps passes through the purge
unchanged. -/
theorem purge_replicate_live (m : Nat) (T now period : Int) (h : now - period ≤ T) :
    purge (List.replicate m T) now period = List.replicate m T := by
  cases m with
  | zero => rfl
  | succ n =>
    rw [purge, List.reverse_replicate, List.replicate_succ, purgeRev]
    simp [h, List.reverse_replicate, List.replicate_succ]

/-- A queue of identical expired timestamps is emptied by the purge. -/
theorem purge_replicate_dead (m : Nat) (T now period : Int) (h : ¬ now - period ≤ T) :
    purge (List.replicate m T) now period = [] := by
  induction m with
  | zero => rfl
  | succ n ih =>
    rw [purge, List.reverse_replicate] at ih ⊢
    rw [List.replicate_succ, purgeRev]
    simp only [h, if_false]
    exact ih

/-- Characterization of a frozen-clock run: starting from a queue of `m`
copies of the frozen instant `T` (with `m` at most the rate `r`), `n`
further calls at `T` fill the queue up to `r` entries; the `i`-th of
those calls (0-indexed) is admitted exactly when `m + i < r`. -/
theorem runCalls_replicate (r : Nat) (period T : Int) (hper : 0 ≤ period) :
    ∀ (n m : Nat), m ≤ r →
      runCalls (r : Int) period (List.replicate m T) (List.replicate n T) =
        (List.replicate (min (m + n) r) T,
         (List.range n).map fun i => decide (m + i < r)) := by
  intro n
  induction n with
  | zero =>
    intro m hm
    simp [runCalls, Nat.min_eq_left hm]
  | succ k ih =>
    intro m hm
    have hlive : purge (List.replicate m T) T period = List.replicate m T :=
      purge_replicate_live m T T period (by omega)
    rw [List.replicate_succ, runCalls]
    rcases lt_or_eq_of_le hm with hlt | heq
    · have hreach : ¬ ((r : Int) ≤ ((List.replicate m T).length : Int)) := by
        simp only [List.length_replicate]
        exact_mod_cast Nat.not_le_of_lt hlt
      have hacq : acquire (r : Int) period (List.replicate m T) T =
          (true, List.replicate (m + 1) T) := by
        simp only [acquire, limit_reached, hlive]
        rw [if_neg (by simpa using hreach)]
        simp [List.replicate_succ']
      rw [hacq]
      simp only
      rw [ih (m + 1) (by omega)]
      simp only [Prod.mk.injEq]
      refine ⟨?_, ?_⟩
      · congr 1
        omega
      · rw [List.range_succ_eq_map, List.map_cons, List.map_map]
        congr 1
        · simp [hlt]
        · congr 1
          funext i
          congr 1
          simp [Nat.succ_eq_add_one]
          constructor <;> omega
    · subst heq
      have hacq : acquire (m : Int) period (List.replicate m T) T =
          (false, List.replicate m T) := by
        simp only [acquire, limit_reached, hlive]
        rw [if_pos (by simp)]
      rw [hacq]
      simp only
      rw [ih m le_rfl]
      simp only [Prod.mk.injEq]
      refine ⟨?_, ?_⟩
      · congr 1
        omega
      · rw [List.range_succ_eq_map, List.map_cons, List.map_map]
        congr 1
        · simp
        · congr 1
          funext i
          simp [Nat.succ_eq_add_one]

def inWindow (w period : Int) : Int → Bool :=
  fun t => decide (w - period ≤ t ∧ t ≤ w)

theorem admittedTimes_after_window (rate per w period : Int) :
    ∀ (ts : List Int), (∀ t ∈ ts, w < t) → ∀ q : List Int,
      (admittedTimes rate per q ts).countP (inWindow w period) = 0 := by
  intro ts
  induction ts with
  | nil => intro _ q; rfl
  | cons t ts ih =>
    intro hts q
    have ht : w < t := hts t (by simp)
    have hnotW : inWindow w period t = false := by
      simp [inWindow]
      omega
    have hrest : ∀ t' ∈ ts, w < t' := fun t' ht' => hts t' (by simp [ht'])
    rw [admittedTimes]
    by_cases hd : (acquire rate per q t).1
    · simp only [hd, if_true, List.countP_cons, hnotW, if_false]
      simpa using ih hrest _
    · simp only [hd, if_false]
      exact ih hrest _

theorem admitted_window_saturated (rate per w : Int) :
    ∀ (ts : List Int), ts.Pairwise (· ≤ ·) → ∀ q : List Int,
      rate ≤ (q.countP (inWindow w per) : Int) →
      (admittedTimes rate per q ts).countP (inWindow w per) = 0 := by
  intro ts
  induction ts with
  | nil => intro _ q _; rfl
  | cons t ts ih =>
    intro hpw q hsat
    rw [List.pairwise_cons] at hpw
    by_cases htw : w < t
    · exact admittedTimes_after_window rate per w per (t :: ts)
        (by
          intro t' ht'
          rcases List.mem_cons.mp ht' with h | h
          · omega
          · exact lt_of_lt_of_le htw (hpw.1 t' h)) q
    · -- t ≤ w : window counts survive the purge, so the call is rejected
      push_neg at htw
      have hcnt : (purge q t per).countP (inWindow w per) = q.countP (inWindow w per) := by
        refine countP_purge _ _ _ _ ?_
        intro x hx
        simp only [inWindow, decide_eq_true_eq] at hx
        omega
      have hlen : rate ≤ (((purge q t per).length : Int)) := by
        have h1 : (purge q t per).countP (inWindow w per) ≤ (purge q t per).length :=
          List.countP_le_length _
        have h2 : rate ≤ ((purge q t per).countP (inWindow w per) : Int) := by
          rw [hcnt]; exact hsat
        exact le_trans h2 (by exact_mod_cast h1)
      have hacq : acquire rate per q t = (false, purge q t per) := by
        simp only [acquire, limit_reached]
        rw [if_pos (by simpa using hlen)]
      rw [admittedTimes, hacq]
      simp only [if_false]
      exact ih hpw.2 _ (by rw [hcnt]; exact hsat)

theorem admitted_window_bound (rate per w : Int) :
    ∀ (ts : List Int), ts.Pairwise (· ≤ ·) → ∀ q : List Int,
      (q.countP (inWindow w per) : Int) < rate →
      (q.countP (inWindow w per) : Int)
        + (admittedTimes rate per q ts).countP (inWindow w per) ≤ rate := by
  intro ts
  induction ts with
  | nil =>
    intro _ q hq
    simpa using hq.le
  | cons t ts ih =>
    intro hpw q hq
    rw [List.pairwise_cons] at hpw
    by_cases htw : w < t
    · have h0 : (admittedTimes rate per q (t :: ts)).countP (inWindow w per) = 0 :=
        admittedTimes_after_window rate per w per (t :: ts)
          (by
            intro t' ht'
            rcases List.mem_cons.mp ht' with h | h
            · omega
            · exact lt_of_lt_of_le htw (hpw.1 t' h)) q
      rw [h0]
      simpa using hq.le
    · push_neg at htw
      have hcnt : (purge q t per).countP (inWindow w per) = q.countP (inWindow w per) := by
        refine countP_purge _ _ _ _ ?_
        intro x hx
        simp only [inWindow, decide_eq_true_eq] at hx
        omega
      rw [admittedTimes]
      by_cases hreach : rate ≤ (((purge q t per).length : Int))
      · -- rejected
        have hacq : acquire rate per q t = (false, purge q t per) := by
          simp only [acquire, limit_reached]
          rw [if_pos (by simpa using hreach)]
        rw [hacq]
        simp only [if_false]
        have := ih hpw.2 (purge q t per) (by rw [hcnt]; exact hq)
        rw [hcnt] at this
        exact this
      · -- admitted
        have hacq : acquire rate per q t = (true, purge q t per ++ [t]) := by
          simp only [acquire, limit_reached]
          rw [if_neg (by simpa using hreach)]
        rw [hacq]
        simp only [if_true]
        have hq2cnt : ((purge q t per ++ [t]).countP (inWindow w per) : Nat)
            = q.countP (inWindow w per) + (if inWindow w per t then 1 else 0) := by
          rw [List.countP_append, hcnt]
          simp [List.countP_cons]
        by_cases hwt : inWindow w per t = true
        · -- the admitted instant lies in the window
          have hc2 : ((purge q t per ++ [t]).countP (inWindow w per) : Int)
              = (q.countP (inWindow w per) : Int) + 1 := by
            rw [hq2cnt]
            simp only [hwt, if_true]
            push_cast
            ring
          rw [List.countP_cons, hwt]
          simp only [if_true]
          by_cases hlt : ((purge q t per ++ [t]).countP (inWindow w per) : Int) < rate
          · have := ih hpw.2 (purge q t per ++ [t]) hlt
            rw [hc2] at this
            push_cast at this ⊢
            omega
          · push_neg at hlt
            have h0 := admitted_window_saturated rate per w ts hpw.2 (purge q t per ++ [t]) hlt
            rw [h0]
            rw [hc2] at hlt
            push_cast
            omega
        · have hwtf : inWindow w per t = false := by
            simpa using hwt
          have hc2 : ((purge q t per ++ [t]).countP (inWindow w per) : Int)
              = (q.countP (inWindow w per) : Int) := by
            rw [hq2cnt, hwtf]
            push_cast
            ring
          rw [List.countP_cons]
          have hz : (if inWindow w per t = true then 1 else 0) = 0 := by
            simp [hwtf]
          rw [hz]
          have := ih hpw.2 (purge q t per ++ [t]) (by rw [hc2]; exact hq)
          rw [hc2] at this
          push_cast at this ⊢
          omega

/-! ### Claims -/

/-- Claim C1 (refuted, code bug): the claim says the purge removes
timestamps from the OLDEST end so that no stale entry survives a check.
The code pops from the newest end (Python `list.pop()` with no index,
despite its own comment "pop the old value off") and re-inserts the
first live entry at the front.  Concretely, with rate 2 and period 10,
calls at instants 0 and 5 are admitted; at the check at instant 12 the
stale timestamp 0 (0 < 12 - 10) survives the purge, the queue becomes
[5, 0], and the call is rejected even though only one live timestamp
remains in the window. -/
theorem C1_stale_entry_survives_check :
    runCalls 2 10 [] [0, 5, 12] = ([5, 0], [true, true, false]) ∧
    (0 : Int) ∈ (runCalls 2 10 [] [0, 5, 12]).1 ∧ (0 : Int) < 12 - 10 := by
  decide

/-- Claim C2 counterexample: constructing a limiter with rate 0 does not
fail — the source performs no validation at all — while the construction
described by the spec fails with `ConfigurationError` on the same
input. -/
theorem C2_construction_never_fails_concrete :
    limiter 0 1 = Except.ok ⟨0, 1⟩ ∧
    limiterSpec 0 1 = Except.error ConfigurationError.mk := by
  constructor
  · rfl
  · rfl

/-- Claim C2 (amended): construction performs no validation and always
succeeds, for every rate and period; there is no `ConfigurationError` in
the code.  A limiter built with rate ≤ 0 instead rejects every wrapped
call (each guarded invocation raises `RateLimitException`). -/
theorem C2_no_validation (rate per : Int) :
    limiter rate per = Except.ok ⟨rate, per⟩ ∧
    (rate ≤ 0 → ∀ (queue : List Int) (t : Int),
      (acquire rate per queue t).1 = false) := by
  refine ⟨rfl, ?_⟩
  intro hr queue t
  have hlen : rate ≤ ((purge queue t per).length : Int) :=
    le_trans hr (by positivity)
  simp [acquire, limit_reached, hlen]

/-- Claim C2 witness. -/
theorem C2_no_validation_witness :
    limiter (-1) 5 = Except.ok ⟨-1, 5⟩ ∧ (acquire (-1) 5 [] 0).1 = false :=
  ⟨(C2_no_validation (-1) 5).1, (C2_no_validation (-1) 5).2 (by decide) [] 0⟩

/-- Claim C3 (confirmed): when the admission check rejects, the wrapped
call raises `RateLimitException` and the inner operation is never
invoked (its invocation trace is empty, whatever `f` is); when it
admits, the inner operation is invoked exactly once with the original
argument and its result — or its failure — is propagated unchanged. -/
theorem C3_wrapped_contract {α β ε : Type} (rate per t1 t2 : Int)
    (queue : List Int) (f : α → Except ε β) (a : α) :
    ((limit_reached queue t1 rate per).1 = true →
        wrapped rate per f queue t1 t2 a =
          (WrapResult.rateLimited, purge queue t1 per, []))
    ∧ ((limit_reached queue t1 rate per).1 = false →
        (wrapped rate per f queue t1 t2 a).2.2 = [a]
        ∧ (∀ b, f a = Except.ok b →
            (wrapped rate per f queue t1 t2 a).1 = WrapResult.ok b)
        ∧ (∀ e, f a = Except.error e →
            (wrapped rate per f queue t1 t2 a).1 = WrapResult.failed e)) := by
  constructor
  · intro h
    simp only [limit_reached, decide_eq_true_eq] at h
    simp [wrapped, limit_reached, h]
  · intro h
    simp only [limit_reached, decide_eq_false_iff_not] at h
    cases hfa : f a with
    | ok b =>
      refine ⟨by simp [wrapped, limit_reached, h, hfa], ?_, ?_⟩
      · intro b' hb'
        injection hb' with hbb
        subst hbb
        simp [wrapped, limit_reached, h, hfa]
      · intro e he
        cases he
    | error e =>
      refine ⟨by simp [wrapped, limit_reached, h, hfa], ?_, ?_⟩
      · intro b hb
        cases hb
      · intro e' he'
        injection he' with hee
        subst hee
        simp [wrapped, limit_reached, h, hfa]

/-- Claim C3 witness. -/
theorem C3_wrapped_contract_witness :
    (wrapped 1 10 (fun _ : Unit => (Except.ok 7 : Except Unit Nat)) [] 0 0 ()).2.2 = [()] ∧
    (wrapped 1 10 (fun _ : Unit => (Except.ok 7 : Except Unit Nat)) [] 0 0 ()).1 =
      WrapResult.ok 7 := by
  have h := (C3_wrapped_contract 1 10 0 0 []
    (fun _ : Unit => (Except.ok 7 : Except Unit Nat)) ()).2 (by decide)
  exact ⟨h.1, h.2.1 7 rfl⟩

/-- Claim C4 (confirmed): with the clock frozen at one instant and an
initially empty queue, the first `rate` wrapped calls are admitted and
every later call at that instant is rejected; and in general a rejected
call changes the queue only by the purge (it appends nothing). -/
theorem C4_frozen_capacity :
    (∀ (r : Nat) (period T : Int) (n : Nat), 0 < r → 0 < period →
      runCalls (r : Int) period [] (List.replicate n T) =
        (List.replicate (min n r) T, (List.range n).map fun i => decide (i < r)))
    ∧ (∀ (rate per t : Int) (q : List Int),
        (acquire rate per q t).1 = false →
        (acquire rate per q t).2 = purge q t per) := by
  constructor
  · intro r period T n hr hper
    simpa using runCalls_replicate r period T hper.le n 0 (Nat.zero_le r)
  · intro rate per t q h
    by_cases hc : rate ≤ ((purge q t per).length : Int)
    · simp [acquire, limit_reached, hc]
    · exfalso
      simp [acquire, limit_reached, hc] at h

/-- Claim C4 witness. -/
theorem C4_frozen_capacity_witness :
    runCalls ((2 : Nat) : Int) 10 [] (List.replicate 4 0) =
      (List.replicate (min 4 2) 0, (List.range 4).map fun i => decide (i < 2)) ∧
    (acquire 2 10 [0, 0] 0).2 = purge [0, 0] 0 10 :=
  ⟨C4_frozen_capacity.1 2 10 0 4 (by decide) (by decide),
   C4_frozen_capacity.2 2 10 0 [0, 0] (by decide)⟩

/-- Claim C5 (confirmed): under a non-decreasing time source, across any
sequence of admission checks started from an empty queue, the number of
admitted instants (with multiplicity) lying in any trailing window
[w - period, w] never exceeds the rate.  In particular this covers calls
spaced period/2 apart continued for 3 × rate calls or more. -/
theorem C5_sliding_window_bound (rate per w : Int) (ts : List Int)
    (hrate : 0 < rate) (hper : 0 < per)
    (hmono : ts.Pairwise (· ≤ ·)) :
    ((admittedTimes rate per [] ts).countP (inWindow w per) : Int) ≤ rate := by
  have h := admitted_window_bound rate per w ts hmono [] (by simpa using hrate)
  simpa using h

/-- Claim C5 witness: rate 2, period 10, six calls spaced 5 = period/2
apart (3 × rate calls), trailing window ending at 20. -/
theorem C5_sliding_window_bound_witness :
    ((admittedTimes 2 10 [] [0, 5, 10, 15, 20, 25]).countP (inWindow 20 10) : Int) ≤ 2 :=
  C5_sliding_window_bound 2 10 20 [0, 5, 10, 15, 20, 25]
    (by decide) (by decide) (by decide)

/-- Claim C6 (confirmed): the purge boundary is inclusive of the lower
edge: entries equal to now - period (and more generally any entry
≥ now - period) keep their exact multiplicity in the queue across the
purge, so they still count toward the rate; only strictly older entries
can be removed. -/
theorem C6_boundary_inclusive (queue : List Int) (now period x : Int)
    (h : now - period ≤ x) :
    List.count x (purge queue now period) = List.count x queue ∧
    (x ∈ queue → x ∈ purge queue now period) := by
  have hcnt : List.count x (purge queue now period) = List.count x queue := by
    rw [List.count_eq_countP, List.count_eq_countP]
    refine countP_purge _ _ _ _ ?_
    intro y hy
    have hxy : y = x := by simpa using hy
    omega
  refine ⟨hcnt, ?_⟩
  intro hmem
  have hpos : 0 < List.count x queue := List.count_pos_iff.mpr hmem
  have : 0 < List.count x (purge queue now period) := by rw [hcnt]; exact hpos
  exact List.count_pos_iff.mp this

/-- Claim C6 witness: a timestamp exactly at now - period (here
2 = 12 - 10) survives the purge. -/
theorem C6_boundary_inclusive_witness :
    List.count 2 (purge [2, 5] 12 10) = List.count 2 [2, 5] ∧
    ((2 : Int) ∈ [(2 : Int), 5] → (2 : Int) ∈ purge [2, 5] 12 10) :=
  C6_boundary_inclusive [2, 5] 12 10 2 (by decide)

/-- Claim C7 counterexample: with rate 1 and period 10, one admission at
instant 0 exhausts capacity, and the check at exactly 0 + 10 = T + period
is REJECTED — the claim says it returns Admitted. -/
theorem C7_boundary_check_rejected_concrete :
    runCalls 1 10 [] [0, 10] = ([0], [true, false]) := by
  decide

/-- Claim C7 (amended): after rate admissions all recorded at instant T,
the admission check at exactly T + period returns Rejected: the entry at
T equals now - period, lies inside the inclusive window, and still
counts, so capacity remains exhausted; admission requires
now > T + period. -/
theorem C7_boundary_check_rejected (r : Nat) (period T : Int) (hr : 1 ≤ r) :
    acquire (r : Int) period (List.replicate r T) (T + period) =
      (false, List.replicate r T) := by
  have hlive : purge (List.replicate r T) (T + period) period = List.replicate r T :=
    purge_replicate_live r T (T + period) period (by omega)
  simp [acquire, limit_reached, hlive]

/-- Claim C7 witness. -/
theorem C7_boundary_check_rejected_witness :
    acquire ((3 : Nat) : Int) 60 (List.replicate 3 0) (0 + 60) =
      (false, List.replicate 3 0) :=
  C7_boundary_check_rejected 3 60 0 (by decide)

/-- Claim C8 (confirmed): after rate admissions all recorded at instant
T, the admission check at any instant T + period + ε with ε > 0 is
admitted (the queue is fully purged and the new instant recorded); and
the end-to-end scenario with rate 3, period 60: three calls at the
frozen instant succeed, a fourth is rejected, and after advancing the
clock by 120 three further calls all succeed. -/
theorem C8_window_recovery :
    (∀ (r : Nat) (period eps T : Int), 1 ≤ r → 0 < eps →
      acquire (r : Int) period (List.replicate r T) (T + period + eps) =
        (true, [T + period + eps]))
    ∧ runCalls 3 60 [] [0, 0, 0, 0, 120, 120, 120] =
        ([120, 120, 120], [true, true, true, false, true, true, true]) := by
  constructor
  · intro r period eps T hr heps
    have hdead : purge (List.replicate r T) (T + period + eps) period = [] :=
      purge_replicate_dead r T (T + period + eps) period (by omega)
    have hnr : ¬ ((r : Int) ≤ (([] : List Int).length : Int)) := by
      simp
      omega
    simp [acquire, limit_reached, hdead, hnr]
    omega
  · decide

/-- Claim C8 witness. -/
theorem C8_window_recovery_witness :
    acquire ((2 : Nat) : Int) 10 (List.replicate 2 7) (7 + 10 + 1) =
      (true, [7 + 10 + 1]) :=
  C8_window_recovery.1 2 10 1 7 (by decide) (by decide)

/-- Claim C9 counterexample: the source reads the time source twice per
call; the appended instant is the second read, not the now used for the
purge and the capacity evaluation.  Concretely with rate 1, period 10,
queue [-20]: the check's first read 0 drives the purge (the entry -20 is
expired relative to 0) and the call is admitted, but the recorded
timestamp is the second read 5, not 0. -/
theorem C9_two_time_reads_concrete :
    (wrapped 1 10 (fun _ : Unit => (Except.ok 0 : Except Unit Nat)) [-20] 0 5 ()).2.1
      = [5] ∧
    ¬ (wrapped 1 10 (fun _ : Unit => (Except.ok 0 : Except Unit Nat)) [-20] 0 5 ()).2.1
      = [0] := by
  decide

/-- Claim C9 (amended): the code performs two reads of the time source
per call: the purge and the capacity evaluation use the first read t1,
and on admission the appended instant is the second read t2, taken after
the check; the appended instant equals the check's now only when both
reads return the same instant (e.g. a frozen clock). -/
theorem C9_appended_instant_is_second_read {α β ε : Type} (rate per t1 t2 : Int)
    (queue : List Int) (f : α → Except ε β) (a : α)
    (h : (limit_reached queue t1 rate per).1 = false) :
    (wrapped rate per f queue t1 t2 a).2.1 = purge queue t1 per ++ [t2] := by
  simp only [limit_reached, decide_eq_false_iff_not] at h
  cases hfa : f a with
  | ok b => simp [wrapped, limit_reached, h, hfa]
  | error e => simp [wrapped, limit_reached, h, hfa]

/-- Claim C9 witness. -/
theorem C9_appended_instant_is_second_read_witness :
    (wrapped 1 10 (fun _ : Unit => (Except.ok 0 : Except Unit Nat)) [] 3 4 ()).2.1
      = purge [] 3 10 ++ [4] :=
  C9_appended_instant_is_second_read 1 10 3 4 []
    (fun _ : Unit => (Except.ok 0 : Except Unit Nat)) () (by decide)

/-- Claim C10 (confirmed): each decoration carries its own fresh,
initially empty queue, and calls through one wrapper neither change the
other wrapper's queue nor affect its admit/reject decision: a call on
the second wrapper after any call on the first behaves exactly as it
would have without it. -/
theorem C10_independent_queues :
    initTwoLimiters = ⟨[], []⟩
    ∧ (∀ (rate₁ per₁ : Int) (s : TwoLimiters) (t : Int),
        ((callFirst rate₁ per₁ s t).2).queue₂ = s.queue₂)
    ∧ (∀ (rate₂ per₂ : Int) (s : TwoLimiters) (t : Int),
        ((callSecond rate₂ per₂ s t).2).queue₁ = s.queue₁)
    ∧ (∀ (rate₁ per₁ rate₂ per₂ : Int) (s : TwoLimiters) (t u : Int),
        callSecond rate₂ per₂ ((callFirst rate₁ per₁ s t).2) u =
          ((callSecond rate₂ per₂ s u).1,
           ⟨((callFirst rate₁ per₁ s t).2).queue₁,
            ((callSecond rate₂ per₂ s u).2).queue₂⟩)) := by
  refine ⟨rfl, ?_, ?_, ?_⟩
  · intro rate₁ per₁ s t
    rfl
  · intro rate₂ per₂ s t
    rfl
  · intro rate₁ per₁ rate₂ per₂ s t u
    rfl
